import Mathlib

/-!
Verification of the nix-flake-generator core: a shallow embedding of the
Nix-expression parser entry points in `nix-parser/src/lib.rs`, together with
the AST model, expression grammar, flake analyzer and fragment merge
algorithm.  The grammar, analyzer and merge code are not shipped in the
sources available here (only their entry points, tests and callers are), so
those parts are modelled from the specification, as marked on each
definition.  Rust strings are modelled as `List Char`; Rust byte indexing of
UTF-8 string slices is modelled explicitly via per-character UTF-8 sizes.
-/

set_option maxRecDepth 100000

namespace NixFlake

/-- Binary operator set (spec §3: arithmetic, comparison, boolean,
list-concatenation `++`, attrset-update `//`). -/
inductive BinaryOperator where
  | Add | Sub | Mul | Div
  | Eq | Neq | Lt | Gt | Le | Ge
  | And | Or
  | Concat | Update
  deriving DecidableEq

mutual

/-- Modelled from the spec (§3 data model; `ast.rs` is not in the available
sources): the closed expression sum type `NixExpr`, with the variant and
field names pinned by the test suite in `lib.rs`. -/
inductive NixExpr where
  | Identifier (name : String)
  | Integer (n : Int)
  | String (s : String)
  | InterpolatedString (parts : List StringPart)
  | List (items : List NixExpr)
  | AttrSet (bindings : List Binding) (recursive : Bool)
  | FunctionCall (function : NixExpr) (argument : NixExpr)
  | Lambda (param : LambdaParam) (body : NixExpr)
  | LetIn (bindings : List Binding) (body : NixExpr)
  | With (env : NixExpr) (body : NixExpr)
  | Select (expr : NixExpr) (path : AttrPath) (default : Option NixExpr)
  | BinaryOp (left : NixExpr) (op : BinaryOperator) (right : NixExpr)

inductive StringPart where
  | Literal (s : String)
  | Interpolation (e : NixExpr)

inductive AttrPathPart where
  | Identifier (name : String)
  | Quoted (parts : List StringPart)
  | Dynamic (e : NixExpr)

inductive AttrPath where
  | mk (parts : List AttrPathPart)

inductive Binding where
  | mk (path : AttrPath) (value : NixExpr)

inductive LambdaParam where
  | Identifier (name : String)
  | Pattern (params : List PatternParam) (ellipsis : Bool) (aliasName : Option String)

inductive PatternParam where
  | mk (name : String) (default : Option NixExpr)

end

def AttrPath.parts : AttrPath → List AttrPathPart
  | .mk ps => ps

def Binding.path : Binding → AttrPath
  | .mk p _ => p

def Binding.value : Binding → NixExpr
  | .mk _ v => v

def PatternParam.name : PatternParam → String
  | .mk n _ => n

/-- The two error kinds of the core (spec §7; the enum lives in the missing
`ast.rs`, but `lib.rs` constructs `ParseError::Parse` and the spec names the
second kind `AnalysisError`). -/
inductive ParseError where
  | Parse (msg : String)
  | Analysis (msg : String)
  deriving DecidableEq

/-! ### Characters, whitespace and Rust string primitives -/

def lbrace : Char := '\x7b'

def rbrace : Char := '\x7d'

def isWsChar (c : Char) : Bool := c = ' ' || c = '\n' || c = '\t' || c = '\r'

/-- Model of Rust `str::trim`: strip whitespace from both ends. -/
def trim (l : List Char) : List Char :=
  ((l.dropWhile isWsChar).reverse.dropWhile isWsChar).reverse

/-- Number of bytes of a character in UTF-8, mirroring Rust's `char::len_utf8`. -/
def charUtf8Size (c : Char) : Nat :=
  if c.val < 0x80 then 1
  else if c.val < 0x800 then 2
  else if c.val < 0x10000 then 3
  else 4

/-- Byte length of a string, mirroring Rust's `str::len`. -/
def byteLen (l : List Char) : Nat := (l.map charUtf8Size).sum

/-- Model of the Rust byte-slice `&s[..n]`: returns the characters making up
the first `n` bytes, or `none` when `n` does not fall on a character
boundary (where Rust panics). -/
def sliceBytes : List Char → Nat → Option (List Char)
  | _, 0 => some []
  | [], _ + 1 => none
  | c :: cs, n + 1 =>
    if charUtf8Size c ≤ n + 1 then
      (sliceBytes cs (n + 1 - charUtf8Size c)).map (fun l => c :: l)
    else none

/-! ### Lexical helpers of the grammar (modelled from spec §4.2) -/

def dropToEol (l : List Char) : List Char := l.dropWhile (fun c => !(c = '\n'))

def dropBlockComment : Nat → List Char → List Char
  | 0, l => l
  | _ + 1, [] => []
  | n + 1, c :: cs =>
    if c = '*' && cs.head? = some '/' then cs.tail
    else dropBlockComment n cs

def skipWsF : Nat → List Char → List Char
  | 0, l => l
  | _ + 1, [] => []
  | n + 1, c :: cs =>
    if isWsChar c then skipWsF n cs
    else if c = '#' then skipWsF n (dropToEol cs)
    else if c = '/' && cs.head? = some '*' then
      skipWsF n (dropBlockComment cs.length cs.tail)
    else c :: cs

/-- Skip insignificant whitespace, line comments and block comments
(spec §4.2: they may appear between any two tokens). -/
def skipWs (l : List Char) : List Char := skipWsF l.length l

def isIdentStart (c : Char) : Bool := c.isAlpha || c = '_'

def isIdentChar (c : Char) : Bool := c.isAlphanum || c = '_' || c = '-'

def keywords : List String := ["let", "in", "with", "rec", "inherit", "or"]

def parseIdentRaw : List Char → Option (List Char × String)
  | [] => none
  | c :: cs =>
    if isIdentStart c then
      some (cs.dropWhile isIdentChar, (c :: cs.takeWhile isIdentChar).asString)
    else none

def parseIdent (s : List Char) : Option (List Char × String) :=
  match parseIdentRaw s with
  | some (rem, n) => if keywords.contains n then none else some (rem, n)
  | none => none

def parseKeyword (kw : String) (s : List Char) : Option (List Char) :=
  match parseIdentRaw s with
  | some (rem, n) => if n = kw then some rem else none
  | none => none

def expectChar (c : Char) : List Char → Option (List Char)
  | [] => none
  | x :: xs => if x = c then some xs else none

def digitsToNat : List Char → Nat → Nat
  | [], acc => acc
  | c :: cs, acc => digitsToNat cs (acc * 10 + (c.toNat - 48))

def parseIntLit (s : List Char) : Option (List Char × Int) :=
  let ds := s.takeWhile Char.isDigit
  if ds.isEmpty then none
  else some (s.dropWhile Char.isDigit, Int.ofNat (digitsToNat ds 0))

def unescape (c : Char) : Char :=
  if c = 'n' then '\n' else if c = 't' then '\t' else if c = 'r' then '\r' else c

def flushLit (cur : List Char) (parts : List StringPart) : List StringPart :=
  if cur.isEmpty then parts else parts ++ [.Literal cur.reverse.asString]

def mkStringExpr (parts : List StringPart) : NixExpr :=
  match parts with
  | [] => .String ""
  | [.Literal s] => .String s
  | ps => .InterpolatedString ps

/-- Comparison operator token at the head of the input. -/
def cmpOpTok (s : List Char) : Option (List Char × BinaryOperator) :=
  match s with
  | '=' :: '=' :: s2 => some (s2, .Eq)
  | '!' :: '=' :: s2 => some (s2, .Neq)
  | '<' :: '=' :: s2 => some (s2, .Le)
  | '>' :: '=' :: s2 => some (s2, .Ge)
  | '<' :: s2 => some (s2, .Lt)
  | '>' :: s2 => some (s2, .Gt)
  | _ => none

/-! ### The expression grammar

Modelled from the spec (§4.2; `parser.rs` is not in the available sources):
a fuel-indexed recursive-descent grammar in the nom style used by the entry
point in `lib.rs` — each production maps the input to `none` (failure,
consuming nothing) or `some (remaining, node)`.  Precedence follows §4.2:
application binds tightest, then `++` together with `*`/`/`, then `+`/`-`,
then comparison, then `&&`, then `||`, then `//`; `++` and `//` are
right-associative, application and arithmetic left-associative. -/

mutual

def parseExpr : Nat → List Char → Option (List Char × NixExpr)
  | 0, _ => none
  | fuel + 1, s =>
    let s := skipWs s
    match parseLet fuel s with
    | some r => some r
    | none =>
      match parseWith fuel s with
      | some r => some r
      | none =>
        match parseLambda fuel s with
        | some r => some r
        | none => parseUpdate fuel s

def parseLet : Nat → List Char → Option (List Char × NixExpr)
  | 0, _ => none
  | fuel + 1, s =>
    match parseKeyword "let" s with
    | none => none
    | some s1 =>
      match parseLetBindings fuel s1 with
      | none => none
      | some (s2, bs) =>
        match parseKeyword "in" (skipWs s2) with
        | none => none
        | some s3 =>
          match parseExpr fuel s3 with
          | none => none
          | some (s4, body) => some (s4, .LetIn bs body)

def parseLetBindings : Nat → List Char → Option (List Char × List Binding)
  | 0, _ => none
  | fuel + 1, s =>
    let s := skipWs s
    match parseKeyword "in" s with
    | some _ => some (s, [])
    | none =>
      match parseBinding fuel s with
      | none => some (s, [])
      | some (s1, bs) =>
        match expectChar ';' (skipWs s1) with
        | none => none
        | some s2 =>
          match parseLetBindings fuel s2 with
          | none => none
          | some (s3, rest) => some (s3, bs ++ rest)

def parseWith : Nat → List Char → Option (List Char × NixExpr)
  | 0, _ => none
  | fuel + 1, s =>
    match parseKeyword "with" s with
    | none => none
    | some s1 =>
      match parseExpr fuel s1 with
      | none => none
      | some (s2, env) =>
        match expectChar ';' (skipWs s2) with
        | none => none
        | some s3 =>
          match parseExpr fuel s3 with
          | none => none
          | some (s4, body) => some (s4, .With env body)

def parseLambda : Nat → List Char → Option (List Char × NixExpr)
  | 0, _ => none
  | fuel + 1, s =>
    match parseIdent s with
    | some (s1, n) =>
      let s1' := skipWs s1
      match expectChar ':' s1' with
      | some s2 =>
        match parseExpr fuel s2 with
        | none => none
        | some (s3, b) => some (s3, .Lambda (.Identifier n) b)
      | none =>
        match expectChar '@' s1' with
        | none => none
        | some s2 =>
          match parsePattern fuel (skipWs s2) with
          | none => none
          | some (s3, ps, ell) =>
            match expectChar ':' (skipWs s3) with
            | none => none
            | some s4 =>
              match parseExpr fuel s4 with
              | none => none
              | some (s5, b) => some (s5, .Lambda (.Pattern ps ell (some n)) b)
    | none =>
      match parsePattern fuel s with
      | none => none
      | some (s1, ps, ell) =>
        let s1' := skipWs s1
        match expectChar '@' s1' with
        | some s2 =>
          match parseIdent (skipWs s2) with
          | none => none
          | some (s3, n) =>
            match expectChar ':' (skipWs s3) with
            | none => none
            | some s4 =>
              match parseExpr fuel s4 with
              | none => none
              | some (s5, b) => some (s5, .Lambda (.Pattern ps ell (some n)) b)
        | none =>
          match expectChar ':' s1' with
          | none => none
          | some s2 =>
            match parseExpr fuel s2 with
            | none => none
            | some (s3, b) => some (s3, .Lambda (.Pattern ps ell none) b)

def parsePattern : Nat → List Char → Option (List Char × List PatternParam × Bool)
  | 0, _ => none
  | fuel + 1, s =>
    match expectChar lbrace s with
    | none => none
    | some s1 => parsePatternItems fuel s1

def parsePatternItems : Nat → List Char → Option (List Char × List PatternParam × Bool)
  | 0, _ => none
  | fuel + 1, s =>
    let s := skipWs s
    match expectChar rbrace s with
    | some s1 => some (s1, [], false)
    | none =>
      match s with
      | '.' :: '.' :: '.' :: s1 =>
        match expectChar rbrace (skipWs s1) with
        | some s2 => some (s2, [], true)
        | none => none
      | _ =>
        match parseIdent s with
        | none => none
        | some (s1, n) =>
          let s1' := skipWs s1
          match expectChar '?' s1' with
          | some s2 =>
            match parseExpr fuel s2 with
            | none => none
            | some (s3, d) => parsePatternCont fuel (skipWs s3) n (some d)
          | none => parsePatternCont fuel s1' n none

def parsePatternCont : Nat → List Char → String → Option NixExpr →
    Option (List Char × List PatternParam × Bool)
  | 0, _, _, _ => none
  | fuel + 1, s, n, d =>
    match expectChar ',' s with
    | some s1 =>
      match parsePatternItems fuel s1 with
      | none => none
      | some (s2, ps, e) => some (s2, .mk n d :: ps, e)
    | none =>
      match expectChar rbrace s with
      | some s1 => some (s1, [.mk n d], false)
      | none => none

def parseUpdate : Nat → List Char → Option (List Char × NixExpr)
  | 0, _ => none
  | fuel + 1, s =>
    match parseOrOp fuel s with
    | none => none
    | some (s1, a) =>
      match skipWs s1 with
      | '/' :: '/' :: s2 =>
        match parseUpdate fuel s2 with
        | none => none
        | some (s3, b) => some (s3, .BinaryOp a .Update b)
      | _ => some (s1, a)

def parseOrOp : Nat → List Char → Option (List Char × NixExpr)
  | 0, _ => none
  | fuel + 1, s =>
    match parseAndOp fuel s with
    | none => none
    | some (s1, a) => parseOrRest fuel a s1

def parseOrRest : Nat → NixExpr → List Char → Option (List Char × NixExpr)
  | 0, _, _ => none
  | fuel + 1, a, s =>
    match skipWs s with
    | '|' :: '|' :: s2 =>
      match parseAndOp fuel s2 with
      | none => none
      | some (s3, b) => parseOrRest fuel (.BinaryOp a .Or b) s3
    | _ => some (s, a)

def parseAndOp : Nat → List Char → Option (List Char × NixExpr)
  | 0, _ => none
  | fuel + 1, s =>
    match parseCmp fuel s with
    | none => none
    | some (s1, a) => parseAndRest fuel a s1

def parseAndRest : Nat → NixExpr → List Char → Option (List Char × NixExpr)
  | 0, _, _ => none
  | fuel + 1, a, s =>
    match skipWs s with
    | '&' :: '&' :: s2 =>
      match parseCmp fuel s2 with
      | none => none
      | some (s3, b) => parseAndRest fuel (.BinaryOp a .And b) s3
    | _ => some (s, a)

def parseCmp : Nat → List Char → Option (List Char × NixExpr)
  | 0, _ => none
  | fuel + 1, s =>
    match parseAdd fuel s with
    | none => none
    | some (s1, a) =>
      match cmpOpTok (skipWs s1) with
      | none => some (s1, a)
      | some (s2, op) =>
        match parseAdd fuel s2 with
        | none => none
        | some (s3, b) => some (s3, .BinaryOp a op b)

def parseAdd : Nat → List Char → Option (List Char × NixExpr)
  | 0, _ => none
  | fuel + 1, s =>
    match parseConcat fuel s with
    | none => none
    | some (s1, a) => parseAddRest fuel a s1

def parseAddRest : Nat → NixExpr → List Char → Option (List Char × NixExpr)
  | 0, _, _ => none
  | fuel + 1, a, s =>
    match skipWs s with
    | '+' :: c :: s2 =>
      if c = '+' then some (s, a)
      else
        match parseConcat fuel (c :: s2) with
        | none => none
        | some (s3, b) => parseAddRest fuel (.BinaryOp a .Add b) s3
    | '+' :: [] => some (s, a)
    | '-' :: s2 =>
      match parseConcat fuel s2 with
      | none => none
      | some (s3, b) => parseAddRest fuel (.BinaryOp a .Sub b) s3
    | _ => some (s, a)

def parseConcat : Nat → List Char → Option (List Char × NixExpr)
  | 0, _ => none
  | fuel + 1, s =>
    match parseMul fuel s with
    | none => none
    | some (s1, a) =>
      match skipWs s1 with
      | '+' :: '+' :: s2 =>
        match parseConcat fuel s2 with
        | none => none
        | some (s3, b) => some (s3, .BinaryOp a .Concat b)
      | _ => some (s1, a)

def parseMul : Nat → List Char → Option (List Char × NixExpr)
  | 0, _ => none
  | fuel + 1, s =>
    match parseApp fuel s with
    | none => none
    | some (s1, a) => parseMulRest fuel a s1

def parseMulRest : Nat → NixExpr → List Char → Option (List Char × NixExpr)
  | 0, _, _ => none
  | fuel + 1, a, s =>
    match skipWs s with
    | '*' :: s2 =>
      match parseApp fuel s2 with
      | none => none
      | some (s3, b) => parseMulRest fuel (.BinaryOp a .Mul b) s3
    | '/' :: c :: s2 =>
      if c = '/' || c = '*' then some (s, a)
      else
        match parseApp fuel (c :: s2) with
        | none => none
        | some (s3, b) => parseMulRest fuel (.BinaryOp a .Div b) s3
    | _ => some (s, a)

def parseApp : Nat → List Char → Option (List Char × NixExpr)
  | 0, _ => none
  | fuel + 1, s =>
    match parseSelect fuel s with
    | none => none
    | some (s1, f) => parseAppRest fuel f s1

def parseAppRest : Nat → NixExpr → List Char → Option (List Char × NixExpr)
  | 0, _, _ => none
  | fuel + 1, f, s =>
    match parseSelect fuel (skipWs s) with
    | some (s2, arg) => parseAppRest fuel (.FunctionCall f arg) s2
    | none => some (s, f)

def parseSelect : Nat → List Char → Option (List Char × NixExpr)
  | 0, _ => none
  | fuel + 1, s =>
    match parseAtom fuel (skipWs s) with
    | none => none
    | some (s1, a) =>
      match parseSelectParts fuel [] s1 with
      | none => none
      | some (s2, []) => some (s2, a)
      | some (s2, p :: ps) =>
        match parseKeyword "or" (skipWs s2) with
        | some s3 =>
          match parseSelect fuel (skipWs s3) with
          | none => none
          | some (s4, d) => some (s4, .Select a (.mk (p :: ps)) (some d))
        | none => some (s2, .Select a (.mk (p :: ps)) none)

def parseSelectParts : Nat → List AttrPathPart → List Char →
    Option (List Char × List AttrPathPart)
  | 0, _, _ => none
  | fuel + 1, parts, s =>
    match expectChar '.' (skipWs s) with
    | some s2 =>
      match parsePathPart fuel (skipWs s2) with
      | none => none
      | some (s3, p) => parseSelectParts fuel (parts ++ [p]) s3
    | none => some (s, parts)

def parsePathPart : Nat → List Char → Option (List Char × AttrPathPart)
  | 0, _ => none
  | fuel + 1, s =>
    match s with
    | [] => none
    | c :: rest =>
      if c = '"' then
        match parseStringLit fuel s with
        | some (s1, .String str) => some (s1, .Quoted [.Literal str])
        | some (s1, .InterpolatedString ps) => some (s1, .Quoted ps)
        | _ => none
      else if c = '$' && rest.head? = some lbrace then
        match parseExpr fuel rest.tail with
        | none => none
        | some (s2, e) =>
          match expectChar rbrace (skipWs s2) with
          | none => none
          | some s3 => some (s3, .Dynamic e)
      else
        match parseIdent s with
        | none => none
        | some (s1, n) => some (s1, .Identifier n)

def parseAtom : Nat → List Char → Option (List Char × NixExpr)
  | 0, _ => none
  | fuel + 1, s =>
    match s with
    | [] => none
    | c :: rest =>
      if c = '"' then parseStringLit fuel s
      else if c.isDigit then
        match parseIntLit s with
        | none => none
        | some (s1, n) => some (s1, .Integer n)
      else if c = '[' then parseListLit fuel s
      else if c = '(' then
        match parseExpr fuel rest with
        | none => none
        | some (s1, e) =>
          match expectChar ')' (skipWs s1) with
          | none => none
          | some s2 => some (s2, e)
      else if c = lbrace then parseAttrSet fuel s false
      else
        match parseKeyword "rec" s with
        | some s1 => parseAttrSet fuel (skipWs s1) true
        | none =>
          match parseIdent s with
          | none => none
          | some (s1, n) => some (s1, .Identifier n)

def parseAttrSet : Nat → List Char → Bool → Option (List Char × NixExpr)
  | 0, _, _ => none
  | fuel + 1, s, isRec =>
    match expectChar lbrace s with
    | none => none
    | some s1 =>
      match parseBindingList fuel s1 with
      | none => none
      | some (s2, bs) =>
        match expectChar rbrace (skipWs s2) with
        | none => none
        | some s3 => some (s3, .AttrSet bs isRec)

def parseBindingList : Nat → List Char → Option (List Char × List Binding)
  | 0, _ => none
  | fuel + 1, s =>
    let s := skipWs s
    match expectChar rbrace s with
    | some _ => some (s, [])
    | none =>
      match parseBinding fuel s with
      | none => some (s, [])
      | some (s1, bs) =>
        match expectChar ';' (skipWs s1) with
        | none => none
        | some s2 =>
          match parseBindingList fuel s2 with
          | none => none
          | some (s3, rest) => some (s3, bs ++ rest)

def parseBinding : Nat → List Char → Option (List Char × List Binding)
  | 0, _ => none
  | fuel + 1, s =>
    match parseKeyword "inherit" s with
    | some s1 =>
      let s1' := skipWs s1
      match expectChar '(' s1' with
      | some s2 =>
        match parseExpr fuel s2 with
        | none => none
        | some (s3, e) =>
          match expectChar ')' (skipWs s3) with
          | none => none
          | some s4 =>
            match parseInheritNames fuel s4 with
            | none => none
            | some (s5, ns) =>
              some (s5, ns.map fun n =>
                Binding.mk (.mk [.Identifier n]) (.Select e (.mk [.Identifier n]) none))
      | none =>
        match parseInheritNames fuel s1' with
        | none => none
        | some (s5, ns) =>
          some (s5, ns.map fun n => Binding.mk (.mk [.Identifier n]) (.Identifier n))
    | none =>
      match parsePathPart fuel s with
      | none => none
      | some (s1, p0) =>
        match parseSelectParts fuel [p0] s1 with
        | none => none
        | some (s2, parts) =>
          match expectChar '=' (skipWs s2) with
          | none => none
          | some s3 =>
            match parseExpr fuel s3 with
            | none => none
            | some (s4, v) => some (s4, [Binding.mk (.mk parts) v])

def parseInheritNames : Nat → List Char → Option (List Char × List String)
  | 0, _ => none
  | fuel + 1, s =>
    match parseIdent (skipWs s) with
    | some (s1, n) =>
      match parseInheritNames fuel s1 with
      | none => none
      | some (s2, ns) => some (s2, n :: ns)
    | none => some (s, [])

def parseStringLit : Nat → List Char → Option (List Char × NixExpr)
  | 0, _ => none
  | fuel + 1, s =>
    match expectChar '"' s with
    | none => none
    | some s1 => parseStringParts fuel s1 [] []

def parseStringParts : Nat → List Char → List Char → List StringPart →
    Option (List Char × NixExpr)
  | 0, _, _, _ => none
  | fuel + 1, s, cur, parts =>
    match s with
    | [] => none
    | c :: rest =>
      if c = '"' then some (rest, mkStringExpr (flushLit cur parts))
      else if c = '\\' then
        match rest with
        | [] => none
        | e :: rest2 => parseStringParts fuel rest2 (unescape e :: cur) parts
      else if c = '$' && rest.head? = some lbrace then
        match parseExpr fuel rest.tail with
        | none => none
        | some (s2, e) =>
          match expectChar rbrace (skipWs s2) with
          | none => none
          | some s3 => parseStringParts fuel s3 [] (flushLit cur parts ++ [.Interpolation e])
      else parseStringParts fuel rest (c :: cur) parts

def parseListLit : Nat → List Char → Option (List Char × NixExpr)
  | 0, _ => none
  | fuel + 1, s =>
    match expectChar '[' s with
    | none => none
    | some s1 => parseListItems fuel s1 []

def parseListItems : Nat → List Char → List NixExpr → Option (List Char × NixExpr)
  | 0, _, _ => none
  | fuel + 1, s, acc =>
    let s' := skipWs s
    match expectChar ']' s' with
    | some s2 => some (s2, .List acc)
    | none =>
      match parseSelect fuel s' with
      | none => none
      | some (s2, e) => parseListItems fuel s2 (acc ++ [e])

end

/-- The grammar entry point `parser::nix_expr`, modelled from the spec:
fuel large enough that the fuel never runs out on any input the grammar can
consume. -/
def nix_expr (s : List Char) : Option (List Char × NixExpr) :=
  parseExpr (32 * s.length + 100) s

/-! ### Entry points of `lib.rs`

These three functions are embedded directly from the code in
`nix-parser/src/lib.rs` (lines 12–35).  A result of `none` models a Rust
panic; `some` carries the `Result` value.  The error-message preview is the
byte slice `&remaining_trimmed[..remaining_trimmed.len().min(100)]`, which
panics when byte 100 falls inside a multi-byte character — `sliceBytes`
returns `none` exactly there. -/

def previewMsg (pre : List Char) : String :=
  "Unexpected remaining input: '" ++ pre.asString ++ "' (first 100 chars)"

def parse_nix_expr (input : List Char) : Option (Except ParseError NixExpr) :=
  match nix_expr (trim input) with
  | some (remaining, expr) =>
    let rt := trim remaining
    if rt.isEmpty then some (.ok expr)
    else
      match sliceBytes rt (min (byteLen rt) 100) with
      | some preview => some (.error (.Parse (previewMsg preview)))
      | none => none
  | none => some (.error (.Parse "Parsing Error: nom"))

/-! ### The flake analyzer

Modelled from the spec (§4.3; `flake_analysis.rs` is not in the available
sources): `extract_flake_data` finds the optional top-level `description`;
`extract_fragments_from_expr` performs the structural pattern-matching walk
producing a `FlakeFragments`. -/

/-- Minimal flake summary (spec §3): optional description. -/
structure FlakeData where
  description : Option String
  deriving DecidableEq

/-- Rich flake summary (spec §3): header, insertion-ordered inputs mapping,
overlay snippets, package names, shell-hook text blocks, unfree flag. -/
structure FlakeFragments where
  header : String
  inputs : List (String × String)
  overlays : List NixExpr
  packages : List String
  shell_hooks : List String
  allow_unfree : Bool

mutual

/-- All bindings occurring anywhere in an expression, in document order
(the analyzer's pattern-matching rules are applied as a walk over the whole
tree, spec §4.3 and §9). -/
def exprBindings : NixExpr → List Binding
  | .Identifier _ => []
  | .Integer _ => []
  | .String _ => []
  | .InterpolatedString ps => partsBindings ps
  | .List items => itemsBindings items
  | .AttrSet bs _ => bindingListBindings bs
  | .FunctionCall f a => exprBindings f ++ exprBindings a
  | .Lambda p b => paramBindings p ++ exprBindings b
  | .LetIn bs b => bindingListBindings bs ++ exprBindings b
  | .With e b => exprBindings e ++ exprBindings b
  | .Select e (.mk parts) d => exprBindings e ++ pathPartsBindings parts ++ optBindings d
  | .BinaryOp l _ r => exprBindings l ++ exprBindings r

def bindingListBindings : List Binding → List Binding
  | [] => []
  | b :: bs => bindingBindings b ++ bindingListBindings bs

def bindingBindings : Binding → List Binding
  | .mk (.mk parts) v =>
    Binding.mk (.mk parts) v :: (pathPartsBindings parts ++ exprBindings v)

def pathPartsBindings : List AttrPathPart → List Binding
  | [] => []
  | p :: ps => pathPartBindings p ++ pathPartsBindings ps

def pathPartBindings : AttrPathPart → List Binding
  | .Identifier _ => []
  | .Quoted ps => partsBindings ps
  | .Dynamic e => exprBindings e

def partsBindings : List StringPart → List Binding
  | [] => []
  | .Literal _ :: ps => partsBindings ps
  | .Interpolation e :: ps => exprBindings e ++ partsBindings ps

def itemsBindings : List NixExpr → List Binding
  | [] => []
  | e :: es => exprBindings e ++ itemsBindings es

def paramBindings : LambdaParam → List Binding
  | .Identifier _ => []
  | .Pattern ps _ _ => patternListBindings ps

def patternListBindings : List PatternParam → List Binding
  | [] => []
  | .mk _ none :: ps => patternListBindings ps
  | .mk _ (some d) :: ps => exprBindings d ++ patternListBindings ps

def optBindings : Option NixExpr → List Binding
  | none => []
  | some e => exprBindings e

end

/-- The literal text of a plain string, or of an interpolated string all of
whose parts are literal (spec §4.3: a string with no unresolved
interpolation). -/
def stringValueOf : NixExpr → Option String
  | .String s => some s
  | .InterpolatedString ps =>
    if ps.all (fun p => match p with | .Literal _ => true | .Interpolation _ => false) then
      some (String.join (ps.map fun p => match p with | .Literal s => s | .Interpolation _ => ""))
    else none
  | _ => none

def isDescriptionPath (path : AttrPath) : Bool :=
  match path with
  | .mk [.Identifier n] => n == "description"
  | _ => false

def isDescriptionBinding (b : Binding) : Bool :=
  match b with
  | .mk p _ => isDescriptionPath p

/-- The top-level attribute set's `description` value (spec §4.3): absence
is not an error. -/
def descriptionOf : NixExpr → Option String
  | .AttrSet bs _ =>
    bs.findSome? fun b =>
      match b with
      | .mk p v => if isDescriptionPath p then stringValueOf v else none
  | _ => none

/-- `extract_flake_data` (spec §4.3): the optional description. -/
def extract_flake_data (e : NixExpr) : Except ParseError FlakeData :=
  .ok ⟨descriptionOf e⟩

/-- First-seen-wins insertion used for the inputs mapping: a name already
present is left as is, a new name is appended (keys unique, insertion order
preserved — spec §3, §4.4). -/
def insertInput (acc : List (String × String)) (p : String × String) :
    List (String × String) :=
  if acc.any (fun q => decide (q.1 = p.1)) then acc else acc ++ [p]

def dedupInputs (l : List (String × String)) : List (String × String) :=
  l.foldl insertInput []

def inputsFromNameSet (n : String) (v : NixExpr) : List (String × String) :=
  match v with
  | .AttrSet bs _ =>
    match bs.findSome? (fun b =>
        match b with
        | .mk (.mk [.Identifier u]) vv => if u == "url" then stringValueOf vv else none
        | _ => none) with
    | some s => [(n, s)]
    | none => []
  | _ => []

def innerInput (b : Binding) : List (String × String) :=
  match b with
  | .mk (.mk [.Identifier n, .Identifier u]) v =>
    if u == "url" then
      match stringValueOf v with
      | some s => [(n, s)]
      | none => []
    else []
  | .mk (.mk [.Identifier n]) v => inputsFromNameSet n v
  | _ => []

def bindingDirectInput (b : Binding) : List (String × String) :=
  match b with
  | .mk (.mk [.Identifier i, .Identifier n, .Identifier u]) v =>
    if i == "inputs" && u == "url" then
      match stringValueOf v with
      | some s => [(n, s)]
      | none => []
    else []
  | .mk (.mk [.Identifier i, .Identifier n]) v =>
    if i == "inputs" then inputsFromNameSet n v else []
  | .mk (.mk [.Identifier i]) v =>
    if i == "inputs" then
      match v with
      | .AttrSet bs _ => bs.flatMap innerInput
      | _ => []
    else []
  | _ => []

/-- `inputs.<name>.url` declarations of the top-level attribute set, in both
the dotted and the nested shapes (spec §4.3 item 2), keyed by name. -/
def collectInputs (e : NixExpr) : List (String × String) :=
  match e with
  | .AttrSet bs _ => dedupInputs (bs.flatMap bindingDirectInput)
  | _ => []

def isOverlaysDefaultPath (parts : List AttrPathPart) : Bool :=
  match parts with
  | [.Identifier a, .Identifier b] => a == "overlays" && b == "default"
  | _ => false

/-- Overlay-defining bindings anywhere in the tree, in encounter order
(spec §4.3 item 3). -/
def collectOverlays (e : NixExpr) : List NixExpr :=
  (exprBindings e).flatMap fun b =>
    match b with
    | .mk (.mk parts) v =>
      if isOverlaysDefaultPath parts then [v]
      else
        match parts, v with
        | [.Identifier a], .AttrSet bs _ =>
          if a == "overlays" then
            bs.flatMap fun b2 =>
              match b2 with
              | .mk (.mk [.Identifier d]) vv => if d == "default" then [vv] else []
              | _ => []
          else []
        | _, _ => []

def packageNameOf : NixExpr → Option String
  | .Identifier n => some n
  | .Select _ (.mk parts) _ =>
    match parts.getLast? with
    | some (.Identifier n) => some n
    | _ => none
  | _ => none

def packagesOfValue : NixExpr → List String
  | .List items => items.filterMap packageNameOf
  | .With _ body =>
    match body with
    | .List items => items.filterMap packageNameOf
    | _ => []
  | _ => []

/-- Package names of every `packages = [ ... ]` list, in document order,
duplicates retained (spec §4.3 item 4). -/
def collectPackages (e : NixExpr) : List String :=
  (exprBindings e).flatMap fun b =>
    match b with
    | .mk (.mk [.Identifier n]) v => if n == "packages" then packagesOfValue v else []
    | _ => []

/-- The literal text of a shell hook, interpolations kept as opaque markers
(spec §4.3 item 5). -/
def hookTextOf : NixExpr → Option String
  | .String s => some s
  | .InterpolatedString ps =>
    some (String.join (ps.map fun p =>
      match p with
      | .Literal s => s
      | .Interpolation _ => "$(...)"))
  | _ => none

/-- `shellHook` text blocks anywhere in the tree (spec §4.3 item 5). -/
def collectHooks (e : NixExpr) : List String :=
  (exprBindings e).flatMap fun b =>
    match b with
    | .mk (.mk [.Identifier n]) v =>
      if n == "shellHook" then
        match hookTextOf v with
        | some s => [s]
        | none => []
      else []
    | _ => []

/-- `allowUnfree = true` detection anywhere in the tree (spec §4.3 item 6);
`true` is an identifier in the expression language. -/
def collectUnfree (e : NixExpr) : Bool :=
  (exprBindings e).any fun b =>
    match b with
    | .mk (.mk parts) v =>
      (match parts.getLast? with
       | some (.Identifier n) => n == "allowUnfree"
       | _ => false)
      && (match v with | .Identifier t => t == "true" | _ => false)

def missingDescriptionMsg : String := "missing required attribute: description"

/-- `extract_fragments_from_expr` (spec §4.3): the structural walk; a
missing `description` is an analysis error since `header` is required. -/
def extract_fragments_from_expr (e : NixExpr) : Except ParseError FlakeFragments :=
  match descriptionOf e with
  | none => .error (.Analysis missingDescriptionMsg)
  | some h =>
    .ok { header := h
          inputs := collectInputs e
          overlays := collectOverlays e
          packages := collectPackages e
          shell_hooks := collectHooks e
          allow_unfree := collectUnfree e }

/-- `parse_flake` from `lib.rs` (lines 27–30). -/
def parse_flake (input : List Char) : Option (Except ParseError FlakeData) :=
  (parse_nix_expr input).map fun r => r.bind extract_flake_data

/-- `extract_flake_fragments` from `lib.rs` (lines 32–35). -/
def extract_flake_fragments (input : List Char) :
    Option (Except ParseError FlakeFragments) :=
  (parse_nix_expr input).map fun r => r.bind extract_fragments_from_expr

/-! ### The fragment merge algorithm

Modelled from the spec (§4.4; the merge code is not in the available
sources): K = 1 passes the fragment through; K ≥ 2 replaces the header by
the fixed generic multi-language description (the integration tests pin the
text "Multi-language development environment"), unions the inputs first-seen
keyed by name, concatenates overlays, packages and shell hooks in sequence
order, and ORs the unfree flags. -/

def mergeHeader : String := "Multi-language development environment"

def merge : List FlakeFragments → FlakeFragments
  | [] => ⟨"", [], [], [], [], false⟩
  | [f] => f
  | f :: g :: rest =>
    { header := mergeHeader
      inputs := dedupInputs ((f :: g :: rest).flatMap FlakeFragments.inputs)
      overlays := (f :: g :: rest).flatMap FlakeFragments.overlays
      packages := (f :: g :: rest).flatMap FlakeFragments.packages
      shell_hooks := (f :: g :: rest).flatMap FlakeFragments.shell_hooks
      allow_unfree := (f :: g :: rest).any FlakeFragments.allow_unfree }

/-- First value bound to a key in an association list (the first-seen
declaration). -/
def lookupFirst (name : String) : List (String × String) → Option String
  | [] => none
  | p :: ps => if p.1 = name then some p.2 else lookupFirst name ps

/-! ### The template corpus

Modelled from the spec (§6: the fixed, closed set of named single-language
template documents; the `templates/*.nix` files are not in the available
sources).  The names are the 34 listed in the generator's test suite; the
nine descriptions asserted verbatim by the `lib.rs` tests are used exactly,
the remaining descriptions follow the same declared pattern.  The `go`
document is the full template text embedded in `lib.rs`'s
`test_progressive_go_parsing`; the others are modelled in the conventional
development-environment shape of §4.3 (declared description,
`inputs.nixpkgs.url`, an `outputs` lambda with a `devShells` packages list,
plus the template-specific idioms: the rust overlay toolchain, the python
shell hook, the hashi `allowUnfree = true`). -/

def stdDoc (desc extraInputs extraOut pkgs hook : String) : String :=
  "\x7b description = \"" ++ desc
    ++ "\"; inputs.nixpkgs.url = \"github:NixOS/nixpkgs/nixos-unstable\"; "
    ++ extraInputs
    ++ "outputs = \x7b self, nixpkgs \x7d: \x7b "
    ++ extraOut
    ++ "devShells.default = \x7b packages = [ " ++ pkgs ++ " ]; " ++ hook
    ++ "\x7d; \x7d; \x7d"

def stdDesc (lang : String) : String :=
  "A Nix-flake-based " ++ lang ++ " development environment"

def mkEntry (name lang pkgs : String) : String × String × String :=
  (name, stdDesc lang, stdDoc (stdDesc lang) "" "" pkgs "")

def rustEntry : String × String × String :=
  ("rust", stdDesc "Rust",
   stdDoc (stdDesc "Rust")
     "inputs.rust-overlay.url = \"github:oxalica/rust-overlay\"; "
     "overlays.default = final: prev: \x7b rustToolchain = final.rust-bin.stable.latest.default; \x7d; "
     "rustToolchain cargo-edit rust-analyzer" "")

def pythonEntry : String × String × String :=
  ("python", stdDesc "Python",
   stdDoc (stdDesc "Python") "" "" "python311 python311Packages.pip"
     "shellHook = \"python -m venv .venv\"; ")

def hashiEntry : String × String × String :=
  ("hashi", stdDesc "HashiCorp",
   stdDoc (stdDesc "HashiCorp") "" "config.allowUnfree = true; "
     "terraform packer" "")

def goDoc : String :=
  "\x7b\n  description = \"A Nix-flake-based Go 1.22 development environment\";\n\n  inputs.nixpkgs.url = \"github:NixOS/nixpkgs/nixos-unstable\";\n\n  outputs =\n    \x7b self, nixpkgs \x7d:\n    let\n      goVersion = 24; # Change this to update the whole stack\n\n      supportedSystems = [\n        \"x86_64-linux\"\n        \"aarch64-linux\"\n        \"x86_64-darwin\"\n        \"aarch64-darwin\"\n      ];\n      forEachSupportedSystem =\n        f:\n        nixpkgs.lib.genAttrs supportedSystems (\n          system:\n          f \x7b\n            pkgs = import nixpkgs \x7b\n              inherit system;\n              overlays = [ self.overlays.default ];\n            \x7d;\n          \x7d\n        );\n    in\n    \x7b\n      overlays.default = final: prev: \x7b\n        go = final.\"go_1_$\x7btoString goVersion\x7d\";\n      \x7d;\n\n      devShells = forEachSupportedSystem (\n        \x7b pkgs \x7d:\n        \x7b\n          default = pkgs.mkShell \x7b\n            packages = with pkgs; [\n              go\n              gotools\n              golangci-lint\n            ];\n          \x7d;\n        \x7d\n      );\n    \x7d;\n\x7d"

def goEntry : String × String × String :=
  ("go", "A Nix-flake-based Go 1.22 development environment", goDoc)

def templateCorpus : List (String × String × String) :=
  [ mkEntry "bun" "Bun" "bun"
  , mkEntry "c-cpp" "C/C++" "clang-tools cmake gcc"
  , mkEntry "clojure" "Clojure" "clojure leiningen"
  , mkEntry "csharp" "CSharp" "dotnet-sdk omnisharp-roslyn"
  , mkEntry "cue" "Cue" "cue"
  , mkEntry "dhall" "Dhall" "dhall dhall-json"
  , mkEntry "elixir" "Elixir" "elixir"
  , mkEntry "elm" "Elm" "elmPackages.elm"
  , mkEntry "gleam" "Gleam" "gleam erlang"
  , goEntry
  , hashiEntry
  , mkEntry "haskell" "Haskell" "ghc cabal-install"
  , mkEntry "java" "Java" "jdk maven"
  , mkEntry "kotlin" "Kotlin" "kotlin gradle jdk"
  , mkEntry "latex" "LaTeX" "texlive.combined.scheme-full"
  , mkEntry "nickel" "Nickel" "nickel"
  , mkEntry "nim" "Nim" "nim"
  , mkEntry "nix" "Nix" "nil nixfmt"
  , mkEntry "node" "Node.js" "nodejs node2nix"
  , mkEntry "ocaml" "OCaml" "ocaml opam"
  , mkEntry "opa" "Open Policy Agent" "opa"
  , mkEntry "php" "PHP" "php82 php82Packages.composer"
  , mkEntry "protobuf" "Protobuf" "protobuf buf"
  , mkEntry "pulumi" "Pulumi" "pulumi"
  , pythonEntry
  , mkEntry "r" "R" "R rPackages.tidyverse"
  , mkEntry "ruby" "Ruby" "ruby bundler"
  , rustEntry
  , mkEntry "rust-toolchain" "Rust toolchain-file" "rustup"
  , mkEntry "scala" "Scala" "scala sbt jdk"
  , mkEntry "shell" "Shell" "shellcheck shfmt"
  , mkEntry "swift" "Swift" "swift"
  , mkEntry "vlang" "V" "vlang"
  , mkEntry "zig" "Zig" "zig zls"
  ]

/-- The corpus property of spec §8: analysis succeeds, the header equals
the declared description exactly, `nixpkgs` is among the input names, the
package list is non-empty, and the `hashi` document sets the unfree flag. -/
def corpusCheck (entry : String × String × String) : Bool :=
  match extract_flake_fragments entry.2.2.toList with
  | some (.ok f) =>
    f.header == entry.2.1
      && (f.inputs.map Prod.fst).contains "nixpkgs"
      && !f.packages.isEmpty
      && (!(entry.1 == "hashi") || f.allow_unfree)
  | _ => false

/-- Option fallback used to state first-seen lookup facts. -/
def orE (a b : Option String) : Option String :=
  match a with
  | some v => some v
  | none => b

/-! ### Helper lemmas -/

theorem orE_none (a : Option String) : orE a none = a := by
  cases a <;> rfl

theorem orE_assoc (a b c : Option String) : orE (orE a b) c = orE a (orE b c) := by
  cases a <;> rfl

theorem charUtf8Size_pos (c : Char) : 1 ≤ charUtf8Size c := by
  unfold charUtf8Size
  split
  · exact le_refl 1
  · split
    · norm_num
    · split <;> norm_num

theorem sliceBytes_length_le :
    ∀ (l : List Char) (n : Nat) (pre : List Char),
      sliceBytes l n = some pre → pre.length ≤ n := by
  intro l
  induction l with
  | nil =>
    intro n pre h
    cases n with
    | zero => simp [sliceBytes] at h; simp [← h]
    | succ m => simp [sliceBytes] at h
  | cons c cs ih =>
    intro n pre h
    cases n with
    | zero => simp [sliceBytes] at h; simp [← h]
    | succ m =>
      unfold sliceBytes at h
      split at h
      · next hsz =>
        obtain ⟨pre', hpre', rfl⟩ := Option.map_eq_some'.mp h
        have := ih _ _ hpre'
        have := charUtf8Size_pos c
        simp only [List.length_cons]
        omega
      · exact absurd h (by simp)

theorem lookupFirst_append (k : String) (l₁ l₂ : List (String × String)) :
    lookupFirst k (l₁ ++ l₂) = orE (lookupFirst k l₁) (lookupFirst k l₂) := by
  induction l₁ with
  | nil => rfl
  | cons p ps ih =>
    by_cases h : p.1 = k
    · simp [lookupFirst, h, orE]
    · simp [lookupFirst, h, ih]

theorem lookupFirst_isSome_of_any (k : String) (l : List (String × String))
    (h : (l.any fun q => decide (q.1 = k)) = true) :
    ∃ v, lookupFirst k l = some v := by
  induction l with
  | nil => simp at h
  | cons p ps ih =>
    simp only [List.any_cons, Bool.or_eq_true, decide_eq_true_eq] at h
    by_cases hpk : p.1 = k
    · exact ⟨p.2, by simp [lookupFirst, hpk]⟩
    · obtain ⟨v, hv⟩ := ih (by tauto)
      exact ⟨v, by simp [lookupFirst, hpk, hv]⟩

theorem not_mem_keys_of_any_false (k : String) (l : List (String × String))
    (h : (l.any fun q => decide (q.1 = k)) = false) :
    k ∉ l.map Prod.fst := by
  intro hmem
  obtain ⟨q, hq, hqk⟩ := List.mem_map.mp hmem
  have : (l.any fun q => decide (q.1 = k)) = true :=
    List.any_eq_true.mpr ⟨q, hq, by simp [hqk]⟩
  simp [this] at h

theorem lookupFirst_insertInput (k : String) (acc : List (String × String))
    (p : String × String) :
    lookupFirst k (insertInput acc p)
      = orE (lookupFirst k acc) (if p.1 = k then some p.2 else none) := by
  unfold insertInput
  by_cases hany : (acc.any fun q => decide (q.1 = p.1)) = true
  · simp only [hany, if_true]
    by_cases hpk : p.1 = k
    · obtain ⟨v, hv⟩ := lookupFirst_isSome_of_any k acc (hpk ▸ hany)
      simp [hv, hpk, orE]
    · simp [hpk, orE_none]
  · simp only [Bool.not_eq_true] at hany
    simp only [hany, Bool.false_eq_true, if_false]
    rw [lookupFirst_append]
    by_cases hpk : p.1 = k <;> simp [lookupFirst, hpk]

theorem lookupFirst_foldl_insertInput (k : String) :
    ∀ (l acc : List (String × String)),
      lookupFirst k (l.foldl insertInput acc)
        = orE (lookupFirst k acc) (lookupFirst k l) := by
  intro l
  induction l with
  | nil => intro acc; simp [List.foldl_nil, lookupFirst, orE_none]
  | cons p rest ih =>
    intro acc
    rw [List.foldl_cons, ih, lookupFirst_insertInput, orE_assoc]
    congr 1
    by_cases hpk : p.1 = k <;> simp [lookupFirst, hpk, orE]

theorem lookupFirst_dedupInputs (k : String) (l : List (String × String)) :
    lookupFirst k (dedupInputs l) = lookupFirst k l := by
  unfold dedupInputs
  rw [lookupFirst_foldl_insertInput]
  rfl

theorem keys_nodup_foldl_insertInput :
    ∀ (l acc : List (String × String)),
      (acc.map Prod.fst).Nodup → ((l.foldl insertInput acc).map Prod.fst).Nodup := by
  intro l
  induction l with
  | nil => intro acc h; simpa using h
  | cons p rest ih =>
    intro acc h
    rw [List.foldl_cons]
    apply ih
    unfold insertInput
    by_cases hany : (acc.any fun q => decide (q.1 = p.1)) = true
    · simpa [hany] using h
    · simp only [Bool.not_eq_true] at hany
      have hnm := not_mem_keys_of_any_false p.1 acc hany
      simp only [hany, Bool.false_eq_true, if_false, List.map_append, List.map_cons,
        List.map_nil]
      rw [List.nodup_append]
      refine ⟨h, List.nodup_singleton _, ?_⟩
      intro a ha hb
      simp only [List.mem_singleton] at hb
      exact hnm (hb ▸ ha)

theorem keys_nodup_dedupInputs (l : List (String × String)) :
    ((dedupInputs l).map Prod.fst).Nodup :=
  keys_nodup_foldl_insertInput l [] (by simp)

theorem foldl_insertInput_of_nodup :
    ∀ (l acc : List (String × String)),
      (((acc ++ l).map Prod.fst)).Nodup → l.foldl insertInput acc = acc ++ l := by
  intro l
  induction l with
  | nil => intro acc _; simp
  | cons p rest ih =>
    intro acc h
    have hnm : p.1 ∉ acc.map Prod.fst := by
      simp only [List.map_append, List.nodup_append, List.map_cons] at h
      intro hmem
      exact h.2.2 hmem (by simp)
    have hany : (acc.any fun q => decide (q.1 = p.1)) = false := by
      by_contra hc
      simp only [Bool.not_eq_false] at hc
      obtain ⟨q, hq, hqk⟩ := List.any_eq_true.mp hc
      simp only [decide_eq_true_eq] at hqk
      exact hnm (List.mem_map.mpr ⟨q, hq, hqk⟩)
    rw [List.foldl_cons]
    have hins : insertInput acc p = acc ++ [p] := by
      unfold insertInput
      simp [hany]
    rw [hins, ih (acc ++ [p]) (by simpa using h)]
    simp

theorem dedupInputs_of_nodup (l : List (String × String))
    (h : (l.map Prod.fst).Nodup) : dedupInputs l = l := by
  unfold dedupInputs
  rw [foldl_insertInput_of_nodup l [] (by simpa using h)]
  simp

theorem findSome?_description_none :
    ∀ (bs : List Binding), (∀ b ∈ bs, isDescriptionBinding b = false) →
      (bs.findSome? fun b =>
        match b with
        | .mk p v => if isDescriptionPath p then stringValueOf v else none) = none := by
  intro bs
  induction bs with
  | nil => intro _; rfl
  | cons b rest ih =>
    intro h
    obtain ⟨p, v⟩ := b
    have hb : isDescriptionPath p = false := h (.mk p v) (by simp)
    rw [List.findSome?_cons]
    simp only [hb, Bool.false_eq_true, if_false]
    exact ih fun b' hb' => h b' (by simp [hb'])

theorem descriptionOf_eq_none (bs : List Binding) (r : Bool)
    (h : ∀ b ∈ bs, isDescriptionBinding b = false) :
    descriptionOf (.AttrSet bs r) = none :=
  findSome?_description_none bs h

/-! ### Concrete inputs used by counterexamples and witnesses -/

/-- Trailing remainder of 99 ASCII semicolons followed by the three-byte
character € : byte 100 falls inside the €. -/
def c1CexInput : List Char :=
  ("1 " ++ String.mk (List.replicate 99 ';') ++ "€").toList

def c1CexRemaining : List Char := ' ' :: (List.replicate 99 ';' ++ ['€'])

def c1WitnessInput : List Char := "1 ;".toList

/-- Trailing remainder of 99 ASCII semicolons followed by the two-byte
character é : byte 100 falls inside the é. -/
def c2FailingInput : List Char :=
  ("1 " ++ String.mk (List.replicate 99 ';') ++ "é").toList

def c6WitnessInput : List Char := "\x7b foo = 1; \x7d".toList

def c7WitnessInput : List Char := "\x7b foo = \"bar\"; \x7d".toList

def c8Input : List Char := "\"Hello $\x7bname\x7d!\"".toList

def c9Input : List Char := "a ++ b".toList

def wFragC : FlakeFragments := ⟨"C env", [("nixpkgs", "u1")], [], ["pc"], [], false⟩

def wFragD : FlakeFragments :=
  ⟨"D env", [("rust-overlay", "u2")], [], ["pd"], ["hook d"], true⟩

theorem parse_nix_expr_error_shape (input : List Char) (e : ParseError)
    (h : parse_nix_expr input = some (.error e)) : ∃ m, e = .Parse m := by
  unfold parse_nix_expr at h
  cases hne : nix_expr (trim input) with
  | none =>
    rw [hne] at h
    exact ⟨"Parsing Error: nom", by injection h with h'; injection h' with h''; rw [h'']⟩
  | some pr =>
    obtain ⟨remaining, expr⟩ := pr
    rw [hne] at h
    simp only at h
    by_cases hie : (trim remaining).isEmpty
    · simp [hie] at h
    · simp only [hie, Bool.false_eq_true, if_false] at h
      cases hsl : sliceBytes (trim remaining) (min (byteLen (trim remaining)) 100) with
      | none => rw [hsl] at h; exact absurd h (by simp)
      | some preview =>
        rw [hsl] at h
        exact ⟨previewMsg preview, by injection h with h'; injection h' with h''; rw [h'']⟩

/-! ### The claims -/

/-- C1 (amended): `parse_nix_expr` first trims surrounding whitespace and,
when a successful sub-parse leaves a non-empty non-whitespace remainder,
returns an error whose message includes a preview of the remainder cut at
`min(len, 100)` bytes — hence at most 100 characters — provided that byte
cut falls on a character boundary; when the cut falls inside a multi-byte
character the slice panics instead of returning an error (see the
counterexample). -/
theorem c1_trailing_input_error (input : List Char) :
    (∀ expr, parse_nix_expr input = some (.ok expr) →
      ∃ remaining, nix_expr (trim input) = some (remaining, expr) ∧ trim remaining = [])
    ∧ (∀ remaining expr,
        nix_expr (trim input) = some (remaining, expr) →
        trim remaining ≠ [] →
        (sliceBytes (trim remaining) (min (byteLen (trim remaining)) 100)).isSome = true →
        ∃ pre, sliceBytes (trim remaining) (min (byteLen (trim remaining)) 100) = some pre
          ∧ parse_nix_expr input = some (.error (.Parse (previewMsg pre)))
          ∧ pre.length ≤ 100) := by
  constructor
  · intro expr h
    unfold parse_nix_expr at h
    cases hne : nix_expr (trim input) with
    | none => rw [hne] at h; exact absurd h (by simp)
    | some pr =>
      obtain ⟨remaining, e⟩ := pr
      rw [hne] at h
      simp only at h
      by_cases hie : (trim remaining).isEmpty
      · simp only [hie, if_true, Option.some.injEq] at h
        have he : e = expr := by
          injection h with h'
        refine ⟨remaining, ?_, ?_⟩
        · rw [he]
        · exact List.isEmpty_iff.mp hie
      · simp only [hie, Bool.false_eq_true, if_false] at h
        cases hsl : sliceBytes (trim remaining) (min (byteLen (trim remaining)) 100) with
        | none => rw [hsl] at h; exact absurd h (by simp)
        | some preview => rw [hsl] at h; exact absurd h (by simp)
  · intro remaining expr hp hr hb
    obtain ⟨pre, hpre⟩ := Option.isSome_iff_exists.mp hb
    have hlen : pre.length ≤ min (byteLen (trim remaining)) 100 :=
      sliceBytes_length_le _ _ _ hpre
    have hie : (trim remaining).isEmpty = false := by
      cases h : trim remaining with
      | nil => exact absurd h hr
      | cons a l => rfl
    refine ⟨pre, hpre, ?_, le_trans hlen (min_le_right _ _)⟩
    unfold parse_nix_expr
    rw [hp]
    simp only [hie, Bool.false_eq_true, if_false, hpre]

/-- C1 witness: on the input `1 ;` the sub-parse consumes `1` and leaves
the remainder `;`, producing the trailing-input error with its preview. -/
theorem c1_trailing_input_error_witness :
    ∃ pre, sliceBytes (trim [' ', ';']) (min (byteLen (trim [' ', ';'])) 100) = some pre
      ∧ parse_nix_expr c1WitnessInput = some (.error (.Parse (previewMsg pre)))
      ∧ pre.length ≤ 100 :=
  (c1_trailing_input_error c1WitnessInput).2 [' ', ';'] (.Integer 1) rfl
    (by decide) (by decide)

/-- C1 counterexample: on an input whose trimmed remainder is 99 semicolons
followed by €, the sub-parse succeeds and the remainder is non-empty, yet
`parse_nix_expr` returns no error at all — the preview byte-slice panics
(modelled as `none`), refuting the claim that every such input yields an
error message. -/
theorem c1_trailing_input_cex :
    nix_expr (trim c1CexInput) = some (c1CexRemaining, .Integer 1)
    ∧ trim c1CexRemaining ≠ []
    ∧ parse_nix_expr c1CexInput = none :=
  ⟨rfl, by decide, rfl⟩

/-- C2: refuted as a safety claim about the code — at the concrete failing
input (remainder of 99 semicolons then the two-byte é) the sub-parse
succeeds, the code reaches the preview slice
`&remaining_trimmed[..len.min(100)]`, and byte 100 is not a character
boundary, so the Rust code panics instead of returning `Ok`/`Err`
(`none` in this model). -/
theorem c2_preview_slice_panics :
    parse_nix_expr c2FailingInput = none
    ∧ (nix_expr (trim c2FailingInput)).isSome = true :=
  ⟨rfl, rfl⟩

/-- C3: every document of the fixed template corpus analyzes successfully,
the header equals the declared description exactly, `nixpkgs` is among the
input names, the package list is non-empty, and the hashi document sets
`allow_unfree`. -/
theorem c3_corpus_fragments : ∀ e ∈ templateCorpus, corpusCheck e = true := by
  decide

/-- C3 witness: the rust corpus entry, evaluated concretely. -/
theorem c3_corpus_fragments_witness : corpusCheck rustEntry = true :=
  c3_corpus_fragments rustEntry (by decide)

/-- C4: `merge` of a one-element sequence returns the fragment unchanged;
the generic multi-language header is only used for two or more fragments. -/
theorem c4_merge_singleton (f : FlakeFragments) : merge [f] = f := rfl

/-- C5: for K ≥ 2 fragments the merged inputs mapping is the first-seen
union keyed by name: lookup of any name equals the first-seen lookup over
the concatenated inputs, the result's keys are unique, and for pairwise
disjoint (well-formed) input names the result is exactly the concatenation
of all inputs in encounter order. -/
theorem c5_merge_inputs_union (f g : FlakeFragments) (rest : List FlakeFragments) :
    (∀ name, lookupFirst name (merge (f :: g :: rest)).inputs
      = lookupFirst name ((f :: g :: rest).flatMap FlakeFragments.inputs))
    ∧ ((merge (f :: g :: rest)).inputs.map Prod.fst).Nodup
    ∧ ((((f :: g :: rest).flatMap FlakeFragments.inputs).map Prod.fst).Nodup →
        (merge (f :: g :: rest)).inputs = (f :: g :: rest).flatMap FlakeFragments.inputs) := by
  refine ⟨?_, ?_, ?_⟩
  · intro name
    exact lookupFirst_dedupInputs name _
  · exact keys_nodup_dedupInputs _
  · intro hnd
    exact dedupInputs_of_nodup _ hnd

/-- C5 witness: merging two concrete fragments with disjoint input names
yields exactly the concatenated inputs, and lookup is first-seen. -/
theorem c5_merge_inputs_union_witness :
    lookupFirst "nixpkgs" (merge [wFragC, wFragD]).inputs = some "u1"
    ∧ (merge [wFragC, wFragD]).inputs = [("nixpkgs", "u1"), ("rust-overlay", "u2")] := by
  have h := c5_merge_inputs_union wFragC wFragD []
  constructor
  · rw [h.1 "nixpkgs"]; rfl
  · rw [h.2.2 (by decide)]; rfl

/-- C6: the core's errors are exactly the two kinds: an error from
`extract_flake_fragments` is either the parser's `Parse` error, or an
`Analysis` error naming the missing structural element (`description`)
raised after a successful parse. -/
theorem c6_two_error_kinds (input : List Char) (e : ParseError)
    (h : extract_flake_fragments input = some (.error e)) :
    (∃ m, e = .Parse m ∧ parse_nix_expr input = some (.error (.Parse m)))
    ∨ (∃ expr, parse_nix_expr input = some (.ok expr)
        ∧ e = .Analysis missingDescriptionMsg
        ∧ extract_fragments_from_expr expr = .error (.Analysis missingDescriptionMsg)) := by
  unfold extract_flake_fragments at h
  cases hp : parse_nix_expr input with
  | none => rw [hp] at h; exact absurd h (by simp)
  | some r =>
    rw [hp] at h
    simp only [Option.map_some', Option.some.injEq] at h
    cases r with
    | error pe =>
      left
      obtain ⟨m, hm⟩ := parse_nix_expr_error_shape input pe hp
      have hepe : e = pe := by
        simpa [Except.bind] using h.symm
      exact ⟨m, by rw [hepe, hm], by rw [hm]⟩
    | ok expr =>
      right
      have hx : extract_fragments_from_expr expr = .error e := by
        simpa [Except.bind] using h
      unfold extract_fragments_from_expr at hx
      cases hd : descriptionOf expr with
      | none =>
        rw [hd] at hx
        simp only [Except.error.injEq] at hx
        refine ⟨expr, rfl, hx.symm, ?_⟩
        unfold extract_fragments_from_expr
        rw [hd]
      | some s => rw [hd] at hx; exact absurd hx (by simp)

/-- C6 witness: a document that parses but declares no description yields
the `Analysis` error naming `description`. -/
theorem c6_two_error_kinds_witness :
    (∃ m, ParseError.Analysis missingDescriptionMsg = .Parse m
      ∧ parse_nix_expr c6WitnessInput = some (.error (.Parse m)))
    ∨ (∃ expr, parse_nix_expr c6WitnessInput = some (.ok expr)
        ∧ ParseError.Analysis missingDescriptionMsg = .Analysis missingDescriptionMsg
        ∧ extract_fragments_from_expr expr = .error (.Analysis missingDescriptionMsg)) :=
  c6_two_error_kinds c6WitnessInput (.Analysis missingDescriptionMsg) rfl

/-- C7: a document that parses to a top-level attribute set without a
description binding gives `parse_flake` success with no description, while
`extract_flake_fragments` fails with the analysis error, since a
description is required for a well-formed fragment set. -/
theorem c7_description_optional_vs_required (input : List Char)
    (bs : List Binding) (r : Bool)
    (hp : parse_nix_expr input = some (.ok (.AttrSet bs r)))
    (hd : ∀ b ∈ bs, isDescriptionBinding b = false) :
    parse_flake input = some (.ok ⟨none⟩)
    ∧ extract_flake_fragments input = some (.error (.Analysis missingDescriptionMsg)) := by
  have hdesc := descriptionOf_eq_none bs r hd
  constructor
  · unfold parse_flake
    rw [hp]
    simp only [Option.map_some', Option.some.injEq]
    show Except.bind _ _ = _
    simp only [Except.bind]
    unfold extract_flake_data
    rw [hdesc]
  · unfold extract_flake_fragments
    rw [hp]
    simp only [Option.map_some', Option.some.injEq]
    show Except.bind _ _ = _
    simp only [Except.bind]
    unfold extract_fragments_from_expr
    rw [hdesc]

/-- C7 witness: the concrete document with a single `foo` binding. -/
theorem c7_description_optional_vs_required_witness :
    parse_flake c7WitnessInput = some (.ok ⟨none⟩)
    ∧ extract_flake_fragments c7WitnessInput
        = some (.error (.Analysis missingDescriptionMsg)) :=
  c7_description_optional_vs_required c7WitnessInput
    [Binding.mk (.mk [.Identifier "foo"]) (.String "bar")] false rfl (by decide)

/-- C8: the interpolated string input parses to exactly three parts in
order: the literal, the interpolation of the identifier `name`, the
literal `!`. -/
theorem c8_interpolated_string_parts :
    parse_nix_expr c8Input
      = some (.ok (.InterpolatedString
          [.Literal "Hello ", .Interpolation (.Identifier "name"), .Literal "!"])) := rfl

/-- C9: `a ++ b` parses to a single concatenation `BinaryOp` on the two
identifiers, not to function applications. -/
theorem c9_concat_binary_op :
    parse_nix_expr c9Input
      = some (.ok (.BinaryOp (.Identifier "a") .Concat (.Identifier "b"))) := rfl

/-- C10: `extract_flake_fragments` is deterministic — two invocations on
the same text give identical results; the embedding is a pure function of
the input, with insertion-ordered structures and no hidden state. -/
theorem c10_deterministic (s t : List Char) (h : s = t) :
    extract_flake_fragments s = extract_flake_fragments t := by
  rw [h]

/-- C10 witness: two invocations on the go document agree. -/
theorem c10_deterministic_witness :
    extract_flake_fragments goDoc.toList = extract_flake_fragments goDoc.toList :=
  c10_deterministic goDoc.toList goDoc.toList rfl

end NixFlake
